import Mathlib

/-!
Verification of the document-ingestion manifest, polling, validation and chat-session
logic of the Python-Chat-Bot repository.  Two pipeline variants are embedded:

* the "Auto" variant (`ChatBot_S3_Textract_Bedrock_RAG_Auto.py`): validation, Textract
  OCR, text saved to S3, whole-data-source ingestion job, polling, manifest append;
* the "latest" variant (`latest.py`): Textract OCR, direct document submission,
  per-document polling, manifest append with status and timestamp.

External services (S3, Textract, Bedrock) are modelled by explicit oracle parameters;
the functions return the outcome together with the trace of service calls performed.
-/

namespace ChatBot

/-! ### Data model: manifest entries and the stored manifest object -/

/-- One JSON record of `manifest.jsonl`.  Each field is optional, as a JSON object may
lack it: the Auto variant writes `filename`/`txt_s3_uri`/`ingested`, the latest variant
writes `filename`/`status`/`ingested_at`. -/
structure ManifestEntry where
  filename : Option String
  txt_s3_uri : Option String
  ingested : Option Bool
  status : Option String
  ingested_at : Option String
  deriving Repr, DecidableEq

/-- One line of the stored manifest object; `none` is a line on which `json.loads`
raises. -/
abbrev RawLine := Option ManifestEntry

/-- Result of an S3 `get_object` call: the object's content, a `NoSuchKey` client
error, another `ClientError`, or any other exception. -/
inductive S3Get (α : Type) where
  | ok : α → S3Get α
  | noSuchKey : S3Get α
  | clientError : String → S3Get α
  | otherError : String → S3Get α
  deriving Repr, DecidableEq

/-- The state of the stored manifest object. -/
abbrev Store := S3Get (List RawLine)

/-- `[json.loads(line) for line in lines]`: the first bad line makes the whole
comprehension raise. -/
def parseLines : List RawLine → Option (List ManifestEntry)
  | [] => some []
  | none :: _ => none
  | some e :: rest => (parseLines rest).map (fun es => e :: es)

/-- `download_manifest` (identical logic in both variants): returns the parsed entries
together with whether an error was reported via `st.error`.  `NoSuchKey` silently
yields the empty manifest; any other retrieval or parse error is reported and also
yields the empty manifest. -/
def download_manifest (s : Store) : List ManifestEntry × Bool :=
  match s with
  | .ok lines =>
    match parseLines lines with
    | some es => (es, false)
    | none => ([], true)
  | .noSuchKey => ([], false)
  | .clientError _ => ([], true)
  | .otherError _ => ([], true)

/-- The entries a store parses to (the reported-error flag dropped). -/
def loadedOf (s : Store) : List ManifestEntry := (download_manifest s).1

/-! ### Filename handling (`os.path.splitext` on a bare filename, then `.lower()`) -/

/-- Index of the last '.' in the list, if any. -/
def lastDotIdx (l : List Char) : Option Nat :=
  (List.range l.length).foldl (fun acc i => if l[i]? = some '.' then some i else acc) none

/-- `os.path.splitext` for a name without path separators: split at the last dot,
except when every character before that dot is itself a dot (e.g. `.bashrc`). -/
def splitext (name : String) : String × String :=
  let l := name.toList
  match lastDotIdx l with
  | none => (name, "")
  | some i =>
    if (l.take i).any (fun c => c != '.') then
      (String.mk (l.take i), String.mk (l.drop i))
    else (name, "")

/-- `os.path.splitext(name)[1].lower()`. -/
def extLower (name : String) : String :=
  String.mk ((splitext name).2.toList.map Char.toLower)

def ALLOWED_EXTENSIONS : List String := [".pdf", ".jpeg", ".jpg", ".png", ".tiff", ".tif"]

def IMAGE_EXTENSIONS : List String := [".jpeg", ".jpg", ".png", ".tiff", ".tif"]

/-- External configuration (from Streamlit secrets); its value is opaque to the logic. -/
def S3_BUCKET : String := "S3_BUCKET"

/-- `s3_key_for_txt`: the source filename with its extension replaced by `.txt`,
under the default `bedrock-ingestion/` key path. -/
def s3_key_for_txt (filename : String) : String :=
  "bedrock-ingestion/" ++ (splitext filename).1 ++ ".txt"

def txtS3Uri (filename : String) : String :=
  "s3://" ++ S3_BUCKET ++ "/" ++ s3_key_for_txt filename

/-! ### Manifest operations -/

/-- `is_in_manifest` (Auto variant): membership by exact filename, ignoring every
other field of the entry. -/
def is_in_manifest (filename : String) (manifest : List ManifestEntry) : Bool :=
  manifest.any (fun entry => entry.filename == some filename)

/-- The record appended by the Auto variant's `add_to_manifest`. -/
def autoEntry (filename uri : String) : ManifestEntry :=
  { filename := some filename, txt_s3_uri := some uri, ingested := some true,
    status := none, ingested_at := none }

/-- The record appended by the latest variant's `update_manifest`; `now` is the value
of `time.time()` at the append. -/
def latestEntry (filename : String) (now : Nat) : ManifestEntry :=
  { filename := some filename, txt_s3_uri := none, ingested := none,
    status := some "INGESTED", ingested_at := some (toString now) }

/-- `upload_manifest` (Auto): `put_object` of the serialized manifest; a put failure is
caught and reported, leaving the stored object unchanged. -/
def upload_manifest (putOk : Bool) (manifest : List ManifestEntry) (s : Store) : Store :=
  if putOk then .ok (manifest.map some) else s

/-- `add_to_manifest` (Auto): append to the in-memory manifest, then upload it.  The
in-memory list holds the new entry even when the upload fails. -/
def add_to_manifest (filename uri : String) (manifest : List ManifestEntry)
    (putOk : Bool) (s : Store) : List ManifestEntry × Store :=
  let m := manifest ++ [autoEntry filename uri]
  (m, upload_manifest putOk m s)

/-- `update_manifest` (latest): download the manifest, append one record with status
INGESTED and the current time, and overwrite the stored object.  Any error (here: a
failing put) is caught and reported, and the function returns normally. -/
def update_manifest (filename : String) (now : Nat) (putOk : Bool) (s : Store) : Store :=
  let m := (download_manifest s).1 ++ [latestEntry filename now]
  if putOk then .ok (m.map some) else s

/-! ### Polling loops -/

/-- How a polling loop ends: success status seen, service-reported failure status
seen, overall timeout elapsed, or an exception from the status call caught.  The four
cases are reported distinctly (`st.error` messages / silent returns in the source);
the Python functions return `True` exactly in the `completed` case. -/
inductive PollOutcome where
  | completed
  | svcFailed
  | timedOut
  | excCaught
  deriving Repr, DecidableEq

/--
One polling loop (`wait_for_bedrock_ingestion` / `wait_for_document_ingestion`):
poll the status, return on a success or failure status, return failure once the
elapsed time exceeds `timeout`, otherwise sleep 5 seconds and repeat.  Status calls
take no time and each sleep takes exactly 5 seconds, so at iteration `k` the elapsed
time is `5 * k`.  An exception from the status call is caught and ends the loop.
`k` counts iterations; the result's second component is the number of status
requests made.  `fuel` bounds the recursion; for `fuel = timeout / 5 + 1 - k` the
`fuel = 0` branch is unreachable, because `5 * k > timeout` holds there first.
-/
def pollAux (isSuccess isFailure : String → Bool) (statuses : Nat → Except String String)
    (timeout : Nat) : Nat → Nat → PollOutcome × Nat
  | fuel, k =>
    match statuses k with
    | .error _ => (.excCaught, k + 1)
    | .ok s =>
      if isSuccess s then (.completed, k + 1)
      else if isFailure s then (.svcFailed, k + 1)
      else if 5 * k > timeout then (.timedOut, k + 1)
      else
        match fuel with
        | 0 => (.timedOut, k + 1)
        | fuel' + 1 => pollAux isSuccess isFailure statuses timeout fuel' (k + 1)

/-- `wait_for_bedrock_ingestion` (Auto): success statuses COMPLETED/COMPLETE, failure
statuses FAILED/STOPPED. -/
def wait_for_bedrock_ingestion (statuses : Nat → Except String String) (timeout : Nat) :
    PollOutcome × Nat :=
  pollAux (fun s => s == "COMPLETED" || s == "COMPLETE")
    (fun s => s == "FAILED" || s == "STOPPED") statuses timeout (timeout / 5 + 1) 0

/-- `wait_for_document_ingestion` (latest): success status INGESTED, failure statuses
FAILED/DELETED. -/
def wait_for_document_ingestion (statuses : Nat → Except String String) (timeout : Nat) :
    PollOutcome × Nat :=
  pollAux (fun s => s == "INGESTED")
    (fun s => s == "FAILED" || s == "DELETED") statuses timeout (timeout / 5 + 1) 0

/-! ### The Auto variant's upload pipeline -/

/-- External service calls traced by the pipeline. -/
inductive Action where
  | ocrCall
  | saveText
  | startIngestionJob
  | submitDocument
  deriving Repr, DecidableEq

inductive StepOutcome where
  | unsupportedType
  | alreadyIngested
  | emptyFile
  | pdfTooLarge
  | imageTooLarge
  | ocrFailed
  | saveFailed
  | startFailed
  | ingestFailed
  | ingestedOk
  deriving Repr, DecidableEq

/-- One uploaded file: its name and its size in bytes. -/
structure UploadedFile where
  name : String
  size : Nat
  deriving Repr, DecidableEq

/-- Oracle for the external services touched while the Auto variant processes one
file: the OCR result (`none` = Textract call raised), whether the text put succeeds,
the started job id (`none` = start call raised), the ingestion-job status sequence,
and whether the manifest put succeeds. -/
structure AutoEnv where
  ocr : Option String
  saveTxtOk : Bool
  startJob : Option String
  statuses : Nat → Except String String
  putManifestOk : Bool

structure AutoResult where
  outcome : StepOutcome
  actions : List Action
  manifest : List ManifestEntry
  store : Store
  deriving Repr, DecidableEq

/-- The body of the Auto variant's upload loop for one file: extension check,
manifest-membership check, emptiness check, type-specific size ceilings, Textract OCR,
text save, ingestion-job start, polling, manifest append. -/
def processFileAuto (env : AutoEnv) (file : UploadedFile) (manifest : List ManifestEntry)
    (s : Store) : AutoResult :=
  let ext := extLower file.name
  if !(ALLOWED_EXTENSIONS.contains ext) then ⟨.unsupportedType, [], manifest, s⟩
  else if is_in_manifest file.name manifest then ⟨.alreadyIngested, [], manifest, s⟩
  else if file.size == 0 then ⟨.emptyFile, [], manifest, s⟩
  else if ext == ".pdf" && decide (file.size > 5 * 1024 * 1024) then
    ⟨.pdfTooLarge, [], manifest, s⟩
  else if IMAGE_EXTENSIONS.contains ext && decide (file.size > 10 * 1024 * 1024) then
    ⟨.imageTooLarge, [], manifest, s⟩
  else
    match env.ocr with
    | none => ⟨.ocrFailed, [.ocrCall], manifest, s⟩
    | some text =>
      if text == "" then ⟨.ocrFailed, [.ocrCall], manifest, s⟩
      else if !env.saveTxtOk then ⟨.saveFailed, [.ocrCall, .saveText], manifest, s⟩
      else
        match env.startJob with
        | none => ⟨.startFailed, [.ocrCall, .saveText, .startIngestionJob], manifest, s⟩
        | some _ =>
          if (wait_for_bedrock_ingestion env.statuses 600).1 = .completed then
            let r := add_to_manifest file.name (txtS3Uri file.name) manifest
              env.putManifestOk s
            ⟨.ingestedOk, [.ocrCall, .saveText, .startIngestionJob], r.1, r.2⟩
          else ⟨.ingestFailed, [.ocrCall, .saveText, .startIngestionJob], manifest, s⟩

/-- What the UI reports for one file of a batch. -/
inductive BatchMsg where
  | unsupported (name : String)
  | alreadyIngested (name : String)
  | failed (name : String)
  | processedOk (name : String)
  deriving Repr, DecidableEq

def msgOfOutcome (name : String) : StepOutcome → BatchMsg
  | .alreadyIngested => .alreadyIngested name
  | .ingestedOk => .processedOk name
  | .unsupportedType => .unsupported name
  | _ => .failed name

structure BatchState where
  manifest : List ManifestEntry
  store : Store
  actions : List Action
  msgs : List BatchMsg

/-- The Auto variant's upload loop over a batch: the in-memory manifest list is
threaded through (each `add_to_manifest` append is visible to later membership
checks within the same batch). -/
def runBatchAuto (items : List (UploadedFile × AutoEnv)) (st : BatchState) : BatchState :=
  match items with
  | [] => st
  | (file, env) :: rest =>
    let r := processFileAuto env file st.manifest st.store
    runBatchAuto rest
      ⟨r.manifest, r.store, st.actions ++ r.actions,
        st.msgs ++ [msgOfOutcome file.name r.outcome]⟩

/-- The Auto variant's whole upload handler: the manifest is downloaded once, then the
batch is processed. -/
def autoUploadFlow (items : List (UploadedFile × AutoEnv)) (s : Store) : BatchState :=
  runBatchAuto items ⟨(download_manifest s).1, s, [], []⟩

/-! ### The latest variant's direct-ingestion pipeline -/

/-- Result of `create_knowledge_base_document`: a document id, a `ConflictException`
(document already exists), or another exception. -/
inductive SubmitResult where
  | okDoc (docId : String)
  | conflict
  | err (msg : String)
  deriving Repr, DecidableEq

/-- Oracle for the services touched by `process_and_ingest`: the OCR result, the
submission result, the document status sequence, whether the manifest put succeeds,
and the clock value used for the manifest timestamp. -/
structure LatestEnv where
  ocr : Option String
  submit : SubmitResult
  statuses : Nat → Except String String
  putManifestOk : Bool
  now : Nat

structure LatestResult where
  success : Bool
  actions : List Action
  store : Store
  deriving Repr, DecidableEq

/-- `process_and_ingest` (latest): Textract OCR (no validation of size or emptiness
beforehand), direct document submission, polling, manifest update.  A
`ConflictException` from the submission is treated as success: the manifest is
updated exactly as on normal success and no second submission is made. -/
def process_and_ingest (env : LatestEnv) (file : UploadedFile) (s : Store) : LatestResult :=
  match env.ocr with
  | none => ⟨false, [.ocrCall], s⟩
  | some _ =>
    match env.submit with
    | .okDoc _ =>
      if (wait_for_document_ingestion env.statuses 600).1 = .completed then
        ⟨true, [.ocrCall, .submitDocument],
          update_manifest file.name env.now env.putManifestOk s⟩
      else ⟨false, [.ocrCall, .submitDocument], s⟩
    | .conflict =>
      ⟨true, [.ocrCall, .submitDocument],
        update_manifest file.name env.now env.putManifestOk s⟩
    | .err _ => ⟨false, [.ocrCall, .submitDocument], s⟩

structure LatestBatchState where
  store : Store
  actions : List Action
  msgs : List BatchMsg

/-- The latest variant's upload loop: `names` is the membership set computed once,
before the loop, from the downloaded manifest. -/
def runBatchLatest (names : List (Option String)) (items : List (UploadedFile × LatestEnv))
    (st : LatestBatchState) : LatestBatchState :=
  match items with
  | [] => st
  | (file, env) :: rest =>
    if names.contains (some file.name) then
      runBatchLatest names rest
        ⟨st.store, st.actions, st.msgs ++ [.alreadyIngested file.name]⟩
    else
      let r := process_and_ingest env file st.store
      runBatchLatest names rest
        ⟨r.store, st.actions ++ r.actions,
          st.msgs ++ [if r.success then .processedOk file.name else .failed file.name]⟩

/-- The latest variant's whole upload handler: the skip set is the filenames of the
manifest downloaded once, before the loop. -/
def latestUploadFlow (items : List (UploadedFile × LatestEnv)) (s : Store) :
    LatestBatchState :=
  runBatchLatest ((download_manifest s).1.map (fun e => e.filename)) items ⟨s, [], []⟩

/-! ### Chat session handling (Auto variant) -/

/-- Result of one `retrieve_and_generate` call: generated text plus the session id the
service returns, or an exception message. -/
inductive SvcResp where
  | ok (text : String) (sessionId : Option String)
  | err (msg : String)
  deriving Repr, DecidableEq

def listIsPrefixOf : List Char → List Char → Bool
  | [], _ => true
  | _ :: _, [] => false
  | a :: as, b :: bs => a == b && listIsPrefixOf as bs

def containsSub (needle : List Char) : List Char → Bool
  | [] => listIsPrefixOf needle []
  | c :: t => listIsPrefixOf needle (c :: t) || containsSub needle t

/-- Python's `needle in hay` on strings. -/
def strContains (hay needle : String) : Bool := containsSub needle.toList hay.toList

/-- Python truthiness of the session id (`None` and `""` are falsy). -/
def isTruthy : Option String → Bool
  | none => false
  | some s => !(s == "")

/-- The session id actually sent with a query: `kwargs["sessionId"]` is set only when
the stored id is truthy. -/
def requestSessionId (session_id : Option String) : Option String :=
  if isTruthy session_id then session_id else none

/-- `get_rag_response` (Auto): on success return the text and the service's session
id; on an error whose message contains "Session with Id" and "is not valid" return
the session-expired message and clear the id; on any other error return the fallback
message and the previous id. -/
def get_rag_response (svc : SvcResp) (session_id : Option String) : String × Option String :=
  match svc with
  | .ok text sid => (text, sid)
  | .err msg =>
    if strContains msg "Session with Id" && strContains msg "is not valid" then
      ("Session expired or invalid. Please try again.", none)
    else ("Please consult your physician for immediate concerns.", session_id)

/-- One chat turn of the Auto variant's UI: call `get_rag_response`, then store the
returned session id when it is truthy and `None` otherwise.  Returns the displayed
response and the new stored session id. -/
def chatTurn (session_id : Option String) (svc : SvcResp) : String × Option String :=
  let r := get_rag_response svc session_id
  (r.1, if isTruthy r.2 then r.2 else none)

/-! ### Derived predicates used by the theorems -/

/-- Number of manifest entries carrying the given filename. -/
def countName (m : List ManifestEntry) (f : String) : Nat :=
  (m.filter (fun e => e.filename == some f)).length

/-- Filenames are unique within the manifest. -/
def uniqueFilenames (m : List ManifestEntry) : Prop :=
  ∀ f : String, countName m f ≤ 1

/-- The Auto variant's pre-OCR validation, summarized: accepted extension, non-empty,
PDF at most 5 MiB, image at most 10 MiB. -/
def validAuto (name : String) (size : Nat) : Bool :=
  let ext := extLower name
  ALLOWED_EXTENSIONS.contains ext && !(size == 0) &&
    !(ext == ".pdf" && decide (size > 5 * 1024 * 1024)) &&
    !(IMAGE_EXTENSIONS.contains ext && decide (size > 10 * 1024 * 1024))

/-! ### Supporting lemmas -/

theorem parseLines_map_some (l : List ManifestEntry) : parseLines (l.map some) = some l := by
  induction l with
  | nil => rfl
  | cons e t ih => simp [parseLines, ih]

theorem loadedOf_put (l : List ManifestEntry) : loadedOf (S3Get.ok (l.map some)) = l := by
  simp [loadedOf, download_manifest, parseLines_map_some]

theorem countName_append (m1 m2 : List ManifestEntry) (f : String) :
    countName (m1 ++ m2) f = countName m1 f + countName m2 f := by
  simp [countName, List.filter_append]

theorem countName_single (e : ManifestEntry) (f : String) :
    countName [e] f = if e.filename = some f then 1 else 0 := by
  simp only [countName, List.filter]
  split <;> rename_i h <;> simp_all

theorem is_in_manifest_false_iff (f : String) (m : List ManifestEntry) :
    is_in_manifest f m = false ↔ countName m f = 0 := by
  simp [is_in_manifest, countName, List.any_eq_true, List.length_eq_zero,
    List.filter_eq_nil_iff]

theorem countName_zero_iff (m : List ManifestEntry) (f : String) :
    countName m f = 0 ↔ some f ∉ m.map (fun e => e.filename) := by
  simp only [countName, List.length_eq_zero, List.filter_eq_nil_iff, List.mem_map,
    not_exists, not_and, beq_iff_eq]

theorem contains_names_iff (m : List ManifestEntry) (f : String) :
    (m.map (fun e => e.filename)).contains (some f) = true ↔
      some f ∈ m.map (fun e => e.filename) := by
  simp

/-- `Nat.toDigitsCore` never shortens its accumulator. -/
theorem toDigitsCore_le_length (b : Nat) (f : Nat) :
    ∀ (n : Nat) (ds : List Char), ds.length ≤ (Nat.toDigitsCore b f n ds).length := by
  induction f with
  | zero => intro n ds; simp [Nat.toDigitsCore]
  | succ f ih =>
    intro n ds
    simp only [Nat.toDigitsCore]
    split
    · simp
    · exact Nat.le_trans (by simp) (ih (n / b) (Nat.digitChar (n % b) :: ds))

theorem toDigits_ne_nil (n : Nat) : Nat.toDigits 10 n ≠ [] := by
  have h : 1 ≤ (Nat.toDigits 10 n).length := by
    show 1 ≤ (Nat.toDigitsCore 10 (n + 1) n []).length
    simp only [Nat.toDigitsCore]
    split
    · simp
    · exact Nat.le_trans (by simp) (toDigitsCore_le_length 10 n (n / 10) [Nat.digitChar (n % 10)])
  intro hnil
  rw [hnil] at h
  simp at h

/-- The decimal representation of a natural number is never the empty string (the
timestamp `str(time.time())` written to the manifest is non-empty). -/
theorem natToString_ne_empty (n : Nat) : toString n ≠ "" := by
  have hdata : (toString n).data = Nat.toDigits 10 n := rfl
  intro h
  rw [h] at hdata
  exact toDigits_ne_nil n hdata.symm

/-- A file already present in the manifest is skipped with no service call (Auto). -/
theorem processFileAuto_already (env : AutoEnv) (file : UploadedFile)
    (m : List ManifestEntry) (s : Store)
    (hext : extLower file.name ∈ ALLOWED_EXTENSIONS)
    (hmem : is_in_manifest file.name m = true) :
    processFileAuto env file m s = ⟨.alreadyIngested, [], m, s⟩ := by
  simp [processFileAuto, hext, hmem]

/-- A file failing the Auto variant's validation is rejected with no service call and
no state change. -/
theorem processFileAuto_invalid (env : AutoEnv) (file : UploadedFile)
    (m : List ManifestEntry) (s : Store)
    (h : validAuto file.name file.size = false) :
    (processFileAuto env file m s).actions = [] ∧
    (processFileAuto env file m s).manifest = m ∧
    (processFileAuto env file m s).store = s := by
  unfold processFileAuto
  by_cases h1 : extLower file.name ∈ ALLOWED_EXTENSIONS
  · by_cases h2 : is_in_manifest file.name m = true
    · simp [h1, h2]
    · by_cases h3 : file.size = 0
      · simp [h1, h2, h3]
      · by_cases h4 : extLower file.name = ".pdf" ∧ file.size > 5 * 1024 * 1024
        · simp [ALLOWED_EXTENSIONS, h2, h3, h4.1, h4.2]
        · by_cases h5 : extLower file.name ∈ IMAGE_EXTENSIONS ∧ file.size > 10 * 1024 * 1024
          · simp [h1, h2, h3, h4, h5.1, h5.2]
          · exfalso
            have hv : validAuto file.name file.size = true := by
              push_neg at h4 h5
              simp [validAuto, h1, h3]
              exact ⟨imp_iff_not_or.mp h4, imp_iff_not_or.mp h5⟩
            rw [hv] at h
            cases h
  · simp [h1]

/-- A file passing validation and not yet in the manifest always reaches the OCR
call (Auto). -/
theorem processFileAuto_ocr_first (env : AutoEnv) (file : UploadedFile)
    (m : List ManifestEntry) (s : Store)
    (hv : validAuto file.name file.size = true)
    (hmem : is_in_manifest file.name m = false) :
    (processFileAuto env file m s).actions.contains .ocrCall = true := by
  simp only [validAuto, Bool.and_eq_true, Bool.not_eq_true'] at hv
  obtain ⟨⟨⟨h1, h2⟩, h3⟩, h4⟩ := hv
  unfold processFileAuto
  simp only [h1, h2, h3, h4, hmem, Bool.not_true, Bool.false_eq_true, if_false]
  cases hocr : env.ocr with
  | none => rfl
  | some text =>
    cases ht : text == "" with
    | true => simp only [ht]; rfl
    | false =>
      cases hs : env.saveTxtOk with
      | false => simp only [ht, hs]; rfl
      | true =>
        cases hj : env.startJob with
        | none => simp only [ht, hs, hj]; rfl
        | some jid =>
          simp only [ht, hs, hj, Bool.not_true, Bool.false_eq_true, if_false]
          split <;> rfl

/-- The Auto step either leaves the in-memory manifest unchanged, or the file was not
in it and exactly its entry is appended. -/
theorem processFileAuto_manifest_shape (env : AutoEnv) (file : UploadedFile)
    (m : List ManifestEntry) (s : Store) :
    ((processFileAuto env file m s).manifest = m ∧ (processFileAuto env file m s).store = s) ∨
    (is_in_manifest file.name m = false ∧
      (processFileAuto env file m s).manifest = m ++ [autoEntry file.name (txtS3Uri file.name)] ∧
      (processFileAuto env file m s).store =
        upload_manifest env.putManifestOk (m ++ [autoEntry file.name (txtS3Uri file.name)]) s) := by
  unfold processFileAuto
  by_cases h1 : ALLOWED_EXTENSIONS.contains (extLower file.name) = true
  · by_cases h2 : is_in_manifest file.name m = true
    · simp only [h1, h2, Bool.not_true, Bool.false_eq_true, if_false]
      exact Or.inl ⟨rfl, rfl⟩
    · rw [Bool.not_eq_true] at h2
      simp only [h1, h2, Bool.not_true, Bool.false_eq_true, if_false]
      cases h3 : file.size == 0 with
      | true => exact Or.inl ⟨rfl, rfl⟩
      | false =>
        cases h4 : (extLower file.name == ".pdf" && decide (file.size > 5 * 1024 * 1024)) with
        | true => exact Or.inl ⟨rfl, rfl⟩
        | false =>
          cases h5 : (IMAGE_EXTENSIONS.contains (extLower file.name) &&
              decide (file.size > 10 * 1024 * 1024)) with
          | true => exact Or.inl ⟨rfl, rfl⟩
          | false =>
            simp only [h3, h4, h5, Bool.false_eq_true, if_false]
            cases hocr : env.ocr with
            | none => exact Or.inl ⟨rfl, rfl⟩
            | some text =>
              cases ht : text == "" with
              | true => simp only [ht]; exact Or.inl ⟨rfl, rfl⟩
              | false =>
                cases hs : env.saveTxtOk with
                | false => simp only [ht, hs]; exact Or.inl ⟨rfl, rfl⟩
                | true =>
                  cases hj : env.startJob with
                  | none => simp only [ht, hs, hj]; exact Or.inl ⟨rfl, rfl⟩
                  | some jid =>
                    simp only [ht, hs, hj, Bool.not_true, Bool.false_eq_true, if_false]
                    split <;>
                      first
                        | exact Or.inl ⟨trivial, trivial⟩
                        | exact Or.inl ⟨rfl, rfl⟩
                        | exact Or.inl ⟨trivial, rfl⟩
                        | exact Or.inl ⟨rfl, trivial⟩
                        | exact Or.inr ⟨trivial, rfl, rfl⟩
                        | exact Or.inr ⟨trivial, trivial, trivial⟩
                        | exact Or.inr ⟨trivial, rfl, trivial⟩
                        | exact Or.inr ⟨trivial, trivial, rfl⟩
  · rw [Bool.not_eq_true] at h1
    simp only [h1, Bool.not_false, if_true]
    first
      | exact Or.inl ⟨trivial, trivial⟩
      | exact Or.inl ⟨rfl, rfl⟩
      | exact Or.inl ⟨trivial, rfl⟩
      | exact Or.inl ⟨rfl, trivial⟩

theorem filter_name_eq_nil (m : List ManifestEntry) (f : String)
    (h : countName m f = 0) : m.filter (fun e => e.filename == some f) = [] :=
  List.length_eq_zero.mp h

theorem is_in_manifest_of_mem (e : ManifestEntry) (m : List ManifestEntry) (f : String)
    (he : e ∈ m) (hf : e.filename = some f) : is_in_manifest f m = true := by
  simp only [is_in_manifest, List.any_eq_true]
  exact ⟨e, he, by simp [hf]⟩

theorem uniqueFilenames_append (m : List ManifestEntry) (e : ManifestEntry) (f : String)
    (hu : uniqueFilenames m) (he : e.filename = some f) (h0 : countName m f = 0) :
    uniqueFilenames (m ++ [e]) := by
  intro g
  rw [countName_append]
  rcases eq_or_ne g f with rfl | hg
  · rw [h0, countName_single]
    simp [he]
  · have h1 : countName [e] g = 0 := by
      rw [countName_single, he]
      simp [Ne.symm hg]
    rw [h1]
    simpa using hu g

theorem runBatchAuto_preserves_unique (items : List (UploadedFile × AutoEnv)) :
    ∀ st : BatchState, uniqueFilenames st.manifest →
      uniqueFilenames (runBatchAuto items st).manifest := by
  induction items with
  | nil => intro st h; exact h
  | cons p rest ih =>
    intro st h
    obtain ⟨file, env⟩ := p
    rw [runBatchAuto]
    apply ih
    rcases processFileAuto_manifest_shape env file st.manifest st.store with
      ⟨hm, _⟩ | ⟨hmem, hm, _⟩
    · show uniqueFilenames (processFileAuto env file st.manifest st.store).manifest
      rw [hm]; exact h
    · show uniqueFilenames (processFileAuto env file st.manifest st.store).manifest
      rw [hm]
      exact uniqueFilenames_append _ _ file.name h (by simp [autoEntry])
        ((is_in_manifest_false_iff _ _).mp hmem)

theorem runBatchAuto_append_only (items : List (UploadedFile × AutoEnv)) :
    ∀ st : BatchState, ∃ t, (runBatchAuto items st).manifest = st.manifest ++ t := by
  induction items with
  | nil => intro st; exact ⟨[], by rw [runBatchAuto]; simp⟩
  | cons p rest ih =>
    intro st
    obtain ⟨file, env⟩ := p
    rw [runBatchAuto]
    obtain ⟨t, ht⟩ := ih ⟨(processFileAuto env file st.manifest st.store).manifest,
      (processFileAuto env file st.manifest st.store).store,
      st.actions ++ (processFileAuto env file st.manifest st.store).actions,
      st.msgs ++ [msgOfOutcome file.name (processFileAuto env file st.manifest st.store).outcome]⟩
    rcases processFileAuto_manifest_shape env file st.manifest st.store with
      ⟨hm, _⟩ | ⟨_, hm, _⟩
    · exact ⟨t, by rw [ht, hm]⟩
    · exact ⟨[autoEntry file.name (txtS3Uri file.name)] ++ t, by
        rw [ht, hm, List.append_assoc]⟩

theorem process_and_ingest_store_shape (env : LatestEnv) (file : UploadedFile) (s : Store) :
    (process_and_ingest env file s).store = s ∨
    loadedOf (process_and_ingest env file s).store =
      loadedOf s ++ [latestEntry file.name env.now] := by
  obtain ⟨ocr, submit, statuses, putOk, now⟩ := env
  cases ocr with
  | none => exact Or.inl rfl
  | some text =>
    cases submit with
    | okDoc d =>
      simp only [process_and_ingest]
      split
      · cases putOk with
        | true =>
          right
          show loadedOf (S3Get.ok ((loadedOf s ++ [latestEntry file.name now]).map some)) =
            loadedOf s ++ [latestEntry file.name now]
          exact loadedOf_put _
        | false => exact Or.inl rfl
      · exact Or.inl rfl
    | conflict =>
      cases putOk with
      | true =>
        right
        show loadedOf (S3Get.ok ((loadedOf s ++ [latestEntry file.name now]).map some)) =
          loadedOf s ++ [latestEntry file.name now]
        exact loadedOf_put _
      | false => exact Or.inl rfl
    | err msg => exact Or.inl rfl

theorem runBatchLatest_append_only (names : List (Option String))
    (items : List (UploadedFile × LatestEnv)) :
    ∀ st : LatestBatchState, ∃ t,
      loadedOf (runBatchLatest names items st).store = loadedOf st.store ++ t := by
  induction items with
  | nil => intro st; exact ⟨[], by rw [runBatchLatest]; simp⟩
  | cons p rest ih =>
    intro st
    obtain ⟨file, env⟩ := p
    rw [runBatchLatest]
    by_cases hc : names.contains (some file.name) = true
    · simp only [hc, if_true]
      exact ih _
    · rw [Bool.not_eq_true] at hc
      simp only [hc, Bool.false_eq_true, if_false]
      obtain ⟨t, ht⟩ := ih ⟨(process_and_ingest env file st.store).store,
        st.actions ++ (process_and_ingest env file st.store).actions,
        st.msgs ++ [if (process_and_ingest env file st.store).success then
          BatchMsg.processedOk file.name else BatchMsg.failed file.name]⟩
      rcases process_and_ingest_store_shape env file st.store with hs | hs
      · exact ⟨t, by rw [ht, hs]⟩
      · exact ⟨[latestEntry file.name env.now] ++ t, by rw [ht, hs, List.append_assoc]⟩

theorem runBatchLatest_preserves_unique (names : List (Option String))
    (items : List (UploadedFile × LatestEnv)) :
    ∀ st : LatestBatchState,
      uniqueFilenames (loadedOf st.store) →
      (items.map (fun p => p.1.name)).Pairwise (fun a b => a ≠ b) →
      (∀ p ∈ items, names.contains (some p.1.name) = false →
        countName (loadedOf st.store) p.1.name = 0) →
      uniqueFilenames (loadedOf (runBatchLatest names items st).store) := by
  induction items with
  | nil => intro st hu _ _; exact hu
  | cons p rest ih =>
    intro st hu hpw hinv
    obtain ⟨file, env⟩ := p
    rw [runBatchLatest]
    rw [List.map_cons, List.pairwise_cons] at hpw
    obtain ⟨hhead, htail⟩ := hpw
    by_cases hc : names.contains (some file.name) = true
    · simp only [hc, if_true]
      exact ih _ hu htail (fun q hq hqc => hinv q (List.mem_cons_of_mem _ hq) hqc)
    · rw [Bool.not_eq_true] at hc
      simp only [hc, Bool.false_eq_true, if_false]
      have h0 : countName (loadedOf st.store) file.name = 0 :=
        hinv (file, env) (List.mem_cons_self _ _) hc
      rcases process_and_ingest_store_shape env file st.store with hs | hs
      · apply ih _ (by rw [hs]; exact hu) htail
        intro q hq hqc
        rw [hs]
        exact hinv q (List.mem_cons_of_mem _ hq) hqc
      · apply ih _ (by
          rw [hs]
          exact uniqueFilenames_append _ _ file.name hu rfl h0) htail
        intro q hq hqc
        rw [hs, countName_append]
        have hq0 : countName (loadedOf st.store) q.1.name = 0 :=
          hinv q (List.mem_cons_of_mem _ hq) hqc
        have hne : file.name ≠ q.1.name := hhead q.1.name (List.mem_map_of_mem _ hq)
        rw [hq0, countName_single]
        simp [latestEntry, hne]

theorem latestUploadFlow_preserves_unique (items : List (UploadedFile × LatestEnv))
    (s : Store) (hu : uniqueFilenames (loadedOf s))
    (hpw : (items.map (fun p => p.1.name)).Pairwise (fun a b => a ≠ b)) :
    uniqueFilenames (loadedOf (latestUploadFlow items s).store) := by
  apply runBatchLatest_preserves_unique _ _ _ hu hpw
  intro p _ hpc
  rw [countName_zero_iff]
  intro hmem
  have hc := (contains_names_iff _ _).mpr hmem
  rw [show loadedOf (⟨s, [], []⟩ : LatestBatchState).store = (download_manifest s).1 from rfl] at hc
  rw [hc] at hpc
  cases hpc

/-! ## Claim theorems -/

/-- The status sequence RUNNING, RUNNING, COMPLETED (Auto ingestion-job statuses). -/
def seqRRC : Nat → Except String String
  | 0 => .ok "RUNNING"
  | 1 => .ok "RUNNING"
  | _ => .ok "COMPLETED"

/-- The status sequence RUNNING, RUNNING, INGESTED (latest document statuses). -/
def seqRRI : Nat → Except String String
  | 0 => .ok "RUNNING"
  | 1 => .ok "RUNNING"
  | _ => .ok "INGESTED"

/-- C1: a filename already present in the loaded manifest is skipped with no OCR call,
no text save, no ingestion-job start and no document submission; it is reported as
already ingested, manifest and store are unchanged, and the batch continues with the
next file.  Holds in both variants (the Auto variant checks the extension first, which
the uploader's type filter guarantees). -/
theorem already_ingested_skip :
    (∀ env file m s, extLower file.name ∈ ALLOWED_EXTENSIONS →
      is_in_manifest file.name m = true →
      processFileAuto env file m s = ⟨.alreadyIngested, [], m, s⟩) ∧
    (∀ file env rest m s acts msgs, extLower file.name ∈ ALLOWED_EXTENSIONS →
      is_in_manifest file.name m = true →
      runBatchAuto ((file, env) :: rest) ⟨m, s, acts, msgs⟩ =
        runBatchAuto rest ⟨m, s, acts, msgs ++ [.alreadyIngested file.name]⟩) ∧
    (∀ names file env rest st, names.contains (some file.name) = true →
      runBatchLatest names ((file, env) :: rest) st =
        runBatchLatest names rest
          ⟨st.store, st.actions, st.msgs ++ [.alreadyIngested file.name]⟩) := by
  refine ⟨?_, ?_, ?_⟩
  · intro env file m s hext hmem
    exact processFileAuto_already env file m s hext hmem
  · intro file env rest m s acts msgs hext hmem
    rw [runBatchAuto, processFileAuto_already env file m s hext hmem]
    simp [msgOfOutcome]
  · intro names file env rest st hc
    rw [runBatchLatest]
    simp only [hc, if_true]

/-- C1 witness. -/
theorem already_ingested_skip_witness :
    extLower "a.pdf" ∈ ALLOWED_EXTENSIONS ∧
    is_in_manifest "a.pdf" [autoEntry "a.pdf" "u"] = true ∧
    processFileAuto ⟨none, false, none, fun _ => .error "e", false⟩ ⟨"a.pdf", 3⟩
        [autoEntry "a.pdf" "u"] S3Get.noSuchKey =
      ⟨.alreadyIngested, [], [autoEntry "a.pdf" "u"], S3Get.noSuchKey⟩ :=
  ⟨by decide, by decide,
    already_ingested_skip.1 ⟨none, false, none, fun _ => .error "e", false⟩ ⟨"a.pdf", 3⟩
      [autoEntry "a.pdf" "u"] S3Get.noSuchKey (by decide) (by decide)⟩

/-- C2 (amended): in the latest variant, `record(f)` (`update_manifest`) followed by
`load()` yields exactly one entry for a fresh `f`, with status INGESTED and a
non-empty timestamp; in the Auto variant (`add_to_manifest`) the single entry instead
carries `ingested = true` and the text location, with no status and no timestamp
field. -/
theorem record_then_load (f : String) (now : Nat) (s : Store)
    (h : countName (loadedOf s) f = 0) :
    (loadedOf (update_manifest f now true s)).filter (fun e => e.filename == some f) =
        [latestEntry f now] ∧
    (latestEntry f now).status = some "INGESTED" ∧
    (∃ ts, (latestEntry f now).ingested_at = some ts ∧ ts ≠ "") ∧
    (∀ uri m s2, countName m f = 0 →
      (loadedOf (add_to_manifest f uri m true s2).2).filter (fun e => e.filename == some f) =
          [autoEntry f uri] ∧
      (autoEntry f uri).ingested = some true ∧ (autoEntry f uri).status = none ∧
      (autoEntry f uri).ingested_at = none) := by
  refine ⟨?_, rfl, ⟨toString now, rfl, natToString_ne_empty now⟩, ?_⟩
  · have hload : loadedOf (update_manifest f now true s) =
        loadedOf s ++ [latestEntry f now] := by
      show loadedOf (S3Get.ok ((loadedOf s ++ [latestEntry f now]).map some)) = _
      exact loadedOf_put _
    rw [hload, List.filter_append, filter_name_eq_nil _ _ h]
    simp [latestEntry]
  · intro uri m s2 hm
    refine ⟨?_, rfl, rfl, rfl⟩
    have hload : loadedOf (add_to_manifest f uri m true s2).2 = m ++ [autoEntry f uri] := by
      show loadedOf (S3Get.ok ((m ++ [autoEntry f uri]).map some)) = _
      exact loadedOf_put _
    rw [hload, List.filter_append, filter_name_eq_nil _ _ hm]
    simp [autoEntry]

/-- C2 counterexample: the Auto variant's `record(f)` followed by `load()` yields an
entry whose status field is absent (not INGESTED) and whose timestamp field is
absent (not a non-empty timestamp), refuting the claim as stated for that variant. -/
theorem record_then_load_counterexample :
    (loadedOf (add_to_manifest "a.pdf" (txtS3Uri "a.pdf") [] true (S3Get.ok [])).2).filter
        (fun e => e.filename == some "a.pdf") = [autoEntry "a.pdf" (txtS3Uri "a.pdf")] ∧
    (autoEntry "a.pdf" (txtS3Uri "a.pdf")).status ≠ some "INGESTED" ∧
    (autoEntry "a.pdf" (txtS3Uri "a.pdf")).ingested_at = none := by
  exact ⟨by decide, by decide, rfl⟩

/-- C2 witness. -/
theorem record_then_load_witness :
    countName (loadedOf (S3Get.ok ([] : List RawLine))) "a.pdf" = 0 ∧
    (loadedOf (update_manifest "a.pdf" 5 true (S3Get.ok []))).filter
        (fun e => e.filename == some "a.pdf") = [latestEntry "a.pdf" 5] :=
  ⟨by decide, (record_then_load "a.pdf" 5 (S3Get.ok []) (by decide)).1⟩

set_option maxRecDepth 8000 in
/-- C3: with statuses RUNNING, RUNNING, COMPLETED (resp. INGESTED) polling returns
success after exactly 3 status requests; with all statuses RUNNING it returns the
timeout outcome (distinct from the service-failure outcome) after 122 polls at the
fixed 5-second interval, at which point the elapsed time `5 * (122 - 1)` has exceeded
the 600-second ceiling; a raising status call is caught; and for every status
sequence the loop returns one of the four outcomes — no exception escapes. -/
theorem polling_termination :
    wait_for_bedrock_ingestion seqRRC 600 = (.completed, 3) ∧
    wait_for_document_ingestion seqRRI 600 = (.completed, 3) ∧
    wait_for_bedrock_ingestion (fun _ => .ok "RUNNING") 600 = (.timedOut, 122) ∧
    wait_for_document_ingestion (fun _ => .ok "RUNNING") 600 = (.timedOut, 122) ∧
    5 * (122 - 1) > 600 ∧
    PollOutcome.timedOut ≠ PollOutcome.svcFailed ∧
    wait_for_bedrock_ingestion (fun _ => .error "boom") 600 = (.excCaught, 1) ∧
    (∀ statuses : Nat → Except String String,
      (wait_for_bedrock_ingestion statuses 600).1 = .completed ∨
      (wait_for_bedrock_ingestion statuses 600).1 = .svcFailed ∨
      (wait_for_bedrock_ingestion statuses 600).1 = .timedOut ∨
      (wait_for_bedrock_ingestion statuses 600).1 = .excCaught) := by
  refine ⟨by decide, by decide, by decide, by decide, by decide, by decide, rfl, ?_⟩
  intro statuses
  cases h : (wait_for_bedrock_ingestion statuses 600).1 <;> simp

/-- C4 (amended): in the Auto variant, the OCR call is reached exactly when the file
passes validation (accepted extension, non-empty, PDF at most 5 MiB, image at most
10 MiB); a file failing validation is rejected with no service call and no state
change; a PDF of exactly 5 MiB passes, a PDF of 5 MiB + 1 byte fails, an image of
10 MiB + 1 byte fails, and a zero-byte file of any name fails.  (The latest variant
performs no such validation; see the counterexample.) -/
theorem validation_boundary :
    (∀ env file m s, is_in_manifest file.name m = false →
      (processFileAuto env file m s).actions.contains .ocrCall =
        validAuto file.name file.size) ∧
    (∀ env file m s, validAuto file.name file.size = false →
      (processFileAuto env file m s).actions = [] ∧
      (processFileAuto env file m s).manifest = m ∧
      (processFileAuto env file m s).store = s) ∧
    validAuto "a.pdf" (5 * 1024 * 1024) = true ∧
    validAuto "a.pdf" (5 * 1024 * 1024 + 1) = false ∧
    validAuto "img.png" (10 * 1024 * 1024 + 1) = false ∧
    validAuto "img.png" (10 * 1024 * 1024) = true ∧
    (∀ name, validAuto name 0 = false) := by
  refine ⟨?_, ?_, by decide, by decide, by decide, by decide, ?_⟩
  · intro env file m s hmem
    cases hval : validAuto file.name file.size with
    | true => rw [processFileAuto_ocr_first env file m s hval hmem]
    | false =>
      rw [(processFileAuto_invalid env file m s hval).1]
      rfl
  · intro env file m s hval
    exact processFileAuto_invalid env file m s hval
  · intro name
    simp [validAuto]

/-- C4 counterexample: the latest variant rejects nothing before OCR — a zero-byte
file of accepted extension is sent straight to the OCR service (and is even fully
ingested), refuting the claim as stated for that variant. -/
theorem validation_boundary_counterexample :
    (latestUploadFlow
        [(⟨"a.pdf", 0⟩, ⟨some "text", .okDoc "d", fun _ => .ok "INGESTED", true, 0⟩)]
        (S3Get.ok [])).actions.contains .ocrCall = true ∧
    (latestUploadFlow
        [(⟨"a.pdf", 0⟩, ⟨some "text", .okDoc "d", fun _ => .ok "INGESTED", true, 0⟩)]
        (S3Get.ok [])).msgs = [.processedOk "a.pdf"] := by
  exact ⟨by decide, by decide⟩

/-- C4 witness. -/
theorem validation_boundary_witness :
    is_in_manifest "b.pdf" [] = false ∧
    (processFileAuto ⟨none, false, none, fun _ => .error "e", false⟩ ⟨"b.pdf", 7⟩ []
        S3Get.noSuchKey).actions.contains .ocrCall = validAuto "b.pdf" 7 :=
  ⟨by decide,
    validation_boundary.1 ⟨none, false, none, fun _ => .error "e", false⟩ ⟨"b.pdf", 7⟩ []
      S3Get.noSuchKey (by decide)⟩

/-- C5: a ConflictException ("document already exists") from the direct submission is
treated as success: the function reports success, makes exactly one submission (no
re-submission), and updates the manifest by the very same `update_manifest` call as a
normal successful ingestion, so (at equal clock and put outcome) the resulting store
is equal to the one a normal successful ingestion produces. -/
theorem conflict_is_success (file : UploadedFile) (s : Store) (text docId : String)
    (statuses : Nat → Except String String) (putOk : Bool) (now : Nat) :
    (process_and_ingest ⟨some text, .conflict, statuses, putOk, now⟩ file s).success = true ∧
    (process_and_ingest ⟨some text, .conflict, statuses, putOk, now⟩ file s).actions.count
        .submitDocument = 1 ∧
    (process_and_ingest ⟨some text, .conflict, statuses, putOk, now⟩ file s).store =
      update_manifest file.name now putOk s ∧
    (process_and_ingest ⟨some text, .okDoc docId, fun _ => .ok "INGESTED", putOk, now⟩
        file s).store = update_manifest file.name now putOk s := by
  exact ⟨rfl, rfl, rfl, rfl⟩

/-- C6: `download_manifest` never raises: `NoSuchKey` silently yields the empty
manifest; any other client error, any other exception, and any parse failure are
reported and also yield the empty manifest; parsable content yields its entries with
no error report. -/
theorem load_fails_soft :
    download_manifest S3Get.noSuchKey = ([], false) ∧
    (∀ e, download_manifest (S3Get.clientError e) = ([], true)) ∧
    (∀ e, download_manifest (S3Get.otherError e) = ([], true)) ∧
    (∀ lines, parseLines lines = none → download_manifest (S3Get.ok lines) = ([], true)) ∧
    (∀ lines es, parseLines lines = some es →
      download_manifest (S3Get.ok lines) = (es, false)) := by
  refine ⟨rfl, fun e => rfl, fun e => rfl, ?_, ?_⟩
  · intro lines h
    simp [download_manifest, h]
  · intro lines es h
    simp [download_manifest, h]

/-- C6 witness. -/
theorem load_fails_soft_witness :
    parseLines [(none : RawLine)] = none ∧
    download_manifest (S3Get.ok [(none : RawLine)]) = ([], true) :=
  ⟨rfl, load_fails_soft.2.2.2.1 [none] rfl⟩

/-- C7: the stored session id returned by a successful query is adopted and carried
on the next request ("A" from the first answer is sent with the second query); an
error message containing "Session with Id" and "is not valid" produces the
session-expired message and clears the stored id, so the next request carries no
session id; any other error preserves the previous id. -/
theorem session_continuity :
    (∀ text, chatTurn none (.ok text (some "A")) = (text, some "A")) ∧
    requestSessionId (some "A") = some "A" ∧
    (∀ sid msg, strContains msg "Session with Id" = true →
      strContains msg "is not valid" = true →
      chatTurn sid (.err msg) = ("Session expired or invalid. Please try again.", none)) ∧
    requestSessionId none = none ∧
    (∀ sid msg,
      strContains msg "Session with Id" = false ∨ strContains msg "is not valid" = false →
      isTruthy sid = true ∨ sid = none →
      chatTurn sid (.err msg) =
        ("Please consult your physician for immediate concerns.", sid)) := by
  refine ⟨?_, rfl, ?_, rfl, ?_⟩
  · intro text
    simp [chatTurn, get_rag_response, isTruthy]
  · intro sid msg h1 h2
    simp [chatTurn, get_rag_response, h1, h2, isTruthy]
  · intro sid msg h1 h2
    have hc : (strContains msg "Session with Id" && strContains msg "is not valid") = false := by
      rcases h1 with h | h <;> simp [h]
    simp only [chatTurn, get_rag_response, hc, Bool.false_eq_true, if_false]
    rcases h2 with h | h
    · simp [h]
    · subst h
      simp [isTruthy]

/-- C7 witness. -/
theorem session_continuity_witness :
    strContains "Session with Id abc is not valid" "Session with Id" = true ∧
    chatTurn (some "A") (.err "Session with Id abc is not valid") =
      ("Session expired or invalid. Please try again.", none) :=
  ⟨by decide,
    session_continuity.2.2.1 (some "A") "Session with Id abc is not valid"
      (by decide) (by decide)⟩

/-- C8 (amended): the Auto variant preserves manifest-filename uniqueness across any
batch; both variants only ever append to the manifest, so recorded entries are never
removed or modified (hence never regressed); the latest variant preserves uniqueness
provided no two files within a single upload batch share a filename (its skip set is
computed once per batch — see the counterexample for a violating batch). -/
theorem manifest_invariant :
    (∀ items st, uniqueFilenames st.manifest →
      uniqueFilenames (runBatchAuto items st).manifest) ∧
    (∀ items st, ∃ t, (runBatchAuto items st).manifest = st.manifest ++ t) ∧
    (∀ names items st, ∃ t,
      loadedOf (runBatchLatest names items st).store = loadedOf st.store ++ t) ∧
    (∀ items s, uniqueFilenames (loadedOf s) →
      (items.map (fun p => p.1.name)).Pairwise (fun a b => a ≠ b) →
      uniqueFilenames (loadedOf (latestUploadFlow items s).store)) :=
  ⟨fun items st => runBatchAuto_preserves_unique items st,
   fun items => runBatchAuto_append_only items,
   fun names items => runBatchLatest_append_only names items,
   fun items s hu hpw => latestUploadFlow_preserves_unique items s hu hpw⟩

/-- C8 counterexample: uploading the same filename twice in one batch of the latest
variant ingests it twice and leaves two manifest entries with the same filename —
filename uniqueness is violated by a plain sequence of pipeline operations. -/
theorem manifest_invariant_counterexample :
    countName (loadedOf ((latestUploadFlow
        [(⟨"a.pdf", 7⟩, ⟨some "text", .okDoc "d", fun _ => .ok "INGESTED", true, 11⟩),
         (⟨"a.pdf", 7⟩, ⟨some "text", .okDoc "d", fun _ => .ok "INGESTED", true, 12⟩)]
        (S3Get.ok [])).store)) "a.pdf" = 2 ∧
    ¬ uniqueFilenames (loadedOf ((latestUploadFlow
        [(⟨"a.pdf", 7⟩, ⟨some "text", .okDoc "d", fun _ => .ok "INGESTED", true, 11⟩),
         (⟨"a.pdf", 7⟩, ⟨some "text", .okDoc "d", fun _ => .ok "INGESTED", true, 12⟩)]
        (S3Get.ok [])).store)) := by
  constructor
  · decide
  · intro h
    have h2 := h "a.pdf"
    rw [(by decide : countName (loadedOf ((latestUploadFlow
        [(⟨"a.pdf", 7⟩, ⟨some "text", .okDoc "d", fun _ => .ok "INGESTED", true, 11⟩),
         (⟨"a.pdf", 7⟩, ⟨some "text", .okDoc "d", fun _ => .ok "INGESTED", true, 12⟩)]
        (S3Get.ok [])).store)) "a.pdf" = 2)] at h2
    exact absurd h2 (by decide)

/-- C8 witness. -/
theorem manifest_invariant_witness :
    uniqueFilenames [autoEntry "a.pdf" "u"] ∧
    uniqueFilenames (runBatchAuto
      [(⟨"b.pdf", 4⟩, ⟨some "T", true, some "j", fun _ => .ok "COMPLETED", true⟩)]
      ⟨[autoEntry "a.pdf" "u"], S3Get.noSuchKey, [], []⟩).manifest := by
  have hu : uniqueFilenames [autoEntry "a.pdf" "u"] := by
    intro f
    rw [countName_single]
    split <;> omega
  exact ⟨hu, manifest_invariant.1
    [(⟨"b.pdf", 4⟩, ⟨some "T", true, some "j", fun _ => .ok "COMPLETED", true⟩)]
    ⟨[autoEntry "a.pdf" "u"], S3Get.noSuchKey, [], []⟩ hu⟩

/-- C9: the skip decision depends only on the filename — any manifest entry whose
filename matches suppresses processing, whatever its status field (including a
missing status), in both variants. -/
theorem skip_depends_only_on_filename :
    (∀ e m f env file s, file.name = f → e ∈ m → e.filename = some f →
      extLower file.name ∈ ALLOWED_EXTENSIONS →
      processFileAuto env file m s = ⟨.alreadyIngested, [], m, s⟩) ∧
    (∀ e s f, e ∈ loadedOf s → e.filename = some f →
      ((download_manifest s).1.map (fun x => x.filename)).contains (some f) = true) ∧
    (∀ e s f file env rest, e ∈ loadedOf s → e.filename = some f → file.name = f →
      latestUploadFlow ((file, env) :: rest) s =
        runBatchLatest ((download_manifest s).1.map (fun x => x.filename)) rest
          ⟨s, [], [.alreadyIngested file.name]⟩) := by
  refine ⟨?_, ?_, ?_⟩
  · intro e m f env file s hname he hf hext
    exact processFileAuto_already env file m s hext
      (hname ▸ is_in_manifest_of_mem e m f he hf)
  · intro e s f he hf
    exact (contains_names_iff _ _).mpr (List.mem_map.mpr ⟨e, he, hf⟩)
  · intro e s f file env rest he hf hname
    subst hname
    have hc : ((download_manifest s).1.map (fun x => x.filename)).contains
        (some file.name) = true :=
      (contains_names_iff _ _).mpr (List.mem_map.mpr ⟨e, he, hf⟩)
    rw [latestUploadFlow, runBatchLatest]
    simp only [hc, if_true]
    simp

/-- C9 witness: an entry with no status field at all still suppresses re-ingestion. -/
theorem skip_depends_only_on_filename_witness :
    (⟨some "a.pdf", none, none, none, none⟩ : ManifestEntry) ∈
      [(⟨some "a.pdf", none, none, none, none⟩ : ManifestEntry)] ∧
    processFileAuto ⟨none, false, none, fun _ => .error "e", false⟩ ⟨"a.pdf", 3⟩
        [⟨some "a.pdf", none, none, none, none⟩] S3Get.noSuchKey =
      ⟨.alreadyIngested, [], [⟨some "a.pdf", none, none, none, none⟩], S3Get.noSuchKey⟩ :=
  ⟨by decide,
    skip_depends_only_on_filename.1 ⟨some "a.pdf", none, none, none, none⟩ _ "a.pdf"
      ⟨none, false, none, fun _ => .error "e", false⟩ ⟨"a.pdf", 3⟩ S3Get.noSuchKey
      rfl (by decide) rfl (by decide)⟩

/-- C10: a failing manifest put is swallowed in both variants: the Auto step still
returns the ingested-success outcome with the store unchanged, the latest
`process_and_ingest` still returns success with the store unchanged (both on normal
success and on conflict), and since the store is unchanged a later run re-processes
the same file (its OCR call happens again). -/
theorem manifest_write_failure_swallowed :
    (∀ file m s text jid, validAuto file.name file.size = true →
      is_in_manifest file.name m = false → text ≠ "" →
      processFileAuto ⟨some text, true, some jid, fun _ => .ok "COMPLETED", false⟩ file m s =
        ⟨.ingestedOk, [.ocrCall, .saveText, .startIngestionJob],
          m ++ [autoEntry file.name (txtS3Uri file.name)], s⟩) ∧
    (∀ file s text docId now,
      process_and_ingest ⟨some text, .okDoc docId, fun _ => .ok "INGESTED", false, now⟩
          file s = ⟨true, [.ocrCall, .submitDocument], s⟩) ∧
    (∀ file s text now,
      process_and_ingest ⟨some text, .conflict, fun _ => .error "e", false, now⟩ file s =
        ⟨true, [.ocrCall, .submitDocument], s⟩) ∧
    (∀ env file s, validAuto file.name file.size = true →
      is_in_manifest file.name (loadedOf s) = false →
      (processFileAuto env file (loadedOf s) s).actions.contains .ocrCall = true) := by
  refine ⟨?_, fun file s text docId now => rfl, fun file s text now => rfl, ?_⟩
  · intro file m s text jid hv hmem htext
    simp only [validAuto, Bool.and_eq_true, Bool.not_eq_true'] at hv
    obtain ⟨⟨⟨h1, h2⟩, h3⟩, h4⟩ := hv
    have htb : (text == "") = false := beq_eq_false_iff_ne.mpr htext
    unfold processFileAuto
    simp only [h1, h2, h3, h4, hmem, htb, Bool.not_true, Bool.false_eq_true, if_false]
    rfl
  · intro env file s hv hmem
    exact processFileAuto_ocr_first env file (loadedOf s) s hv hmem

/-- C10 witness. -/
theorem manifest_write_failure_swallowed_witness :
    validAuto "c.pdf" 9 = true ∧
    processFileAuto ⟨some "T", true, some "j", fun _ => .ok "COMPLETED", false⟩ ⟨"c.pdf", 9⟩
        [] S3Get.noSuchKey =
      ⟨.ingestedOk, [.ocrCall, .saveText, .startIngestionJob],
        [autoEntry "c.pdf" (txtS3Uri "c.pdf")], S3Get.noSuchKey⟩ := by
  refine ⟨by decide, ?_⟩
  have h := manifest_write_failure_swallowed.1 ⟨"c.pdf", 9⟩ [] S3Get.noSuchKey "T" "j"
    (by decide) (by decide) (by decide)
  simpa using h

end ChatBot
